import Mathlib

set_option maxRecDepth 8000

/-!
Shallow embedding of the retrieval-augmented-generation engine of
`src/rag.js` (Discord RAG chatbot).

Modelling conventions:
* JavaScript strings are modelled as `List Char`; `str` converts a Lean
  string literal to that representation.
* JavaScript numbers are modelled as `ℚ` (all arithmetic the engine
  performs — squared distances, the `0.5` penalty, the `2.5`/`1.0`
  thresholds, byte scaling — is exact decimal arithmetic, so `ℚ` is a
  faithful model of the float computations involved).
* External services enter the model as oracles: the embedding provider as
  a function `List Char → List ℚ` (the source's `getEmbedding` is total —
  every failure falls back to `fallbackEmbeddingSync`), the generation
  provider as a function from requests to `Option (List Char)` (`none` =
  transport error, non-2xx status, missing/empty `response` field, or
  abort), and SHA-256 as a digest function `List Char → List ℕ`.
-/

/-- Convert a Lean string literal to the `List Char` model of a JS string. -/
def str (s : String) : List Char := s.data

/-- ASCII whitespace test modelling JS `trim` / `\s` on the characters the
engine actually produces (the normalizer collapses everything to spaces and
newlines). -/
def isWs (c : Char) : Bool := c = ' ' || c = '\t' || c = '\n' || c = '\r'

/-- Model of `String.prototype.trim`. -/
def trimChars (l : List Char) : List Char :=
  ((l.dropWhile isWs).reverse.dropWhile isWs).reverse

/-- Model of `String.prototype.toLowerCase` (ASCII). -/
def lowerChars (l : List Char) : List Char := l.map Char.toLower

/-- One digest byte mapped to `[-1, 1]`: `(b / 255.0) * 2 - 1`
(src/rag.js line 47). -/
def byteToFloat (b : ℕ) : ℚ := (b : ℚ) / 255 * 2 - 1

/-- The digest stream `hash(text + "|" + 0) ++ hash(text + "|" + 1) ++ …`,
cut after `n` digests.  `hash` abstracts `crypto.createHash("sha256")`
(an external library): it maps the hashed string to its digest, a list of
bytes. -/
def digestStream (hash : List Char → List ℕ) (text : List Char) (n : ℕ) : List ℕ :=
  (List.range n).flatMap (fun counter => hash (text ++ str "|" ++ str (toString counter)))

/-- Model of `fallbackEmbeddingSync` (src/rag.js lines 41-52).  The source's
`while` loop fills `dim` slots from the digests of `text|0`, `text|1`, …,
consuming each digest's bytes in order and stopping mid-digest once full;
since every digest is non-empty, this equals taking the first `dim` bytes of
the concatenated digest stream (`dim` digests always suffice). -/
def fallbackEmbeddingSync (hash : List Char → List ℕ) (text : List Char) (dim : ℕ) :
    List ℚ :=
  ((digestStream hash text dim).take dim).map byteToFloat

theorem digestStream_length (hash : List Char → List ℕ) (text : List Char) (n : ℕ)
    (hlen : ∀ s, (hash s).length = 32) : (digestStream hash text n).length = 32 * n := by
  simp only [digestStream, List.length_flatMap, List.map_map]
  have : ∀ m : ℕ, (List.range n).map ((fun l => List.length l) ∘
      fun counter => hash (text ++ str "|" ++ str (toString counter))) =
      (List.range n).map (fun _ => 32) := by
    intro m
    apply List.map_congr_left
    intro a _
    simp [hlen]
  rw [this 0]
  simp [List.map_const, Nat.mul_comm]

/-- C6: for every text and dimension, `fallbackEmbeddingSync` returns exactly
`dim` components, each in `[-1, 1]`, obtained by hashing `text|counter` for
`counter = 0, 1, …` and scaling each digest byte `b` to `(b/255)*2 - 1`
(the definition itself transcribes that algorithm, and determinism is by
construction: the model is a pure function of `(text, dim)`).  The digest
function is abstract, assumed only to produce 32 bytes `< 256` — the
contract of SHA-256. -/
theorem c6_fallback_embedding (hash : List Char → List ℕ) (text : List Char) (dim : ℕ)
    (hlen : ∀ s, (hash s).length = 32) (hbyte : ∀ s, ∀ b ∈ hash s, b ≤ 255)
    (hdim : 0 < dim) :
    (fallbackEmbeddingSync hash text dim).length = dim ∧
      ∀ x ∈ fallbackEmbeddingSync hash text dim, -1 ≤ x ∧ x ≤ 1 := by
  constructor
  · simp only [fallbackEmbeddingSync, List.length_map, List.length_take,
      digestStream_length hash text dim hlen]
    omega
  · intro x hx
    simp only [fallbackEmbeddingSync, List.mem_map] at hx
    obtain ⟨b, hb, rfl⟩ := hx
    have hb2 : b ∈ digestStream hash text dim := List.mem_of_mem_take hb
    simp only [digestStream, List.mem_flatMap] at hb2
    obtain ⟨c, _, hbc⟩ := hb2
    have hble : b ≤ 255 := hbyte _ b hbc
    have hbq : (b : ℚ) ≤ 255 := by exact_mod_cast hble
    have hbq0 : (0 : ℚ) ≤ (b : ℚ) := by positivity
    constructor
    · simp only [byteToFloat]
      nlinarith
    · simp only [byteToFloat]
      nlinarith

theorem c6_fallback_embedding_witness :
    (fallbackEmbeddingSync (fun _ => List.replicate 32 7) (str "hi") 5).length = 5 ∧
      ∀ x ∈ fallbackEmbeddingSync (fun _ => List.replicate 32 7) (str "hi") 5,
        -1 ≤ x ∧ x ≤ 1 :=
  c6_fallback_embedding (fun _ => List.replicate 32 7) (str "hi") 5
    (fun _ => by simp)
    (fun _ b hb => by
      have : b = 7 := List.eq_of_mem_replicate hb
      omega)
    (by norm_num)

/-! ### Chunker (src/rag.js lines 180-206)

`chunkText(text, chunkSize = 1000, overlap = 200)` — every call site uses the
defaults, so the constants 1000 (window size), 200 (overlap) and 100 (sentence
lookahead) are fixed here as in the source signature. -/

/-- `text.indexOf(c, i)`: the first position `≥ i` holding `c`, if any. -/
def idxFrom (c : Char) (s : List Char) (i : ℕ) : Option ℕ :=
  match (s.drop i).findIdx? (fun d => d = c) with
  | some j => some (i + j)
  | none => none

/-- The sentence-boundary lookahead (lines 188-197): a boundary found at `p`
extends the window end to `p + 1` only when it lies within 100 characters. -/
def tryBoundary (p? : Option ℕ) (e0 : ℕ) : Option ℕ :=
  match p? with
  | some p => if p - e0 < 100 then some (p + 1) else none
  | none => none

/-- The end offset of the window starting at `start`: `start + 1000`, extended
to just past the next `'.'` (preferred) or `'\n'` within the 100-character
lookahead, provided the raw end falls strictly inside the text. -/
def chunkEnd (s : List Char) (start : ℕ) : ℕ :=
  let e0 := start + 1000
  if e0 < s.length then
    match tryBoundary (idxFrom '.' s e0) e0 with
    | some e => e
    | none =>
      match tryBoundary (idxFrom '\n' s e0) e0 with
      | some e => e
      | none => e0
  else e0

theorem idxFrom_ge (c : Char) (s : List Char) (i p : ℕ) (h : idxFrom c s i = some p) :
    i ≤ p := by
  unfold idxFrom at h
  rcases hf : (s.drop i).findIdx? (fun d => d = c) with _ | j
  · simp [hf] at h
  · simp [hf] at h
    omega

theorem tryBoundary_gt (p? : Option ℕ) (e0 e : ℕ)
    (hge : ∀ p, p? = some p → e0 ≤ p) (h : tryBoundary p? e0 = some e) : e0 < e := by
  rcases p? with _ | p
  · simp [tryBoundary] at h
  · have := hge p rfl
    simp only [tryBoundary] at h
    split at h
    · simp at h
      omega
    · simp at h

theorem chunkEnd_ge (s : List Char) (start : ℕ) : start + 1000 ≤ chunkEnd s start := by
  simp only [chunkEnd]
  by_cases h : start + 1000 < s.length
  · simp only [if_pos h]
    rcases hp : tryBoundary (idxFrom '.' s (start + 1000)) (start + 1000) with _ | e
    · rcases hq : tryBoundary (idxFrom '\n' s (start + 1000)) (start + 1000) with _ | e
      · simp [hp, hq]
      · have := tryBoundary_gt _ _ _ (fun p hp2 => idxFrom_ge _ s _ p hp2) hq
        simp [hp, hq]
        omega
    · have := tryBoundary_gt _ _ _ (fun p hp2 => idxFrom_ge _ s _ p hp2) hp
      simp [hp]
      omega
  · simp [if_neg h]

/-- The untrimmed windows of the chunking loop: window `[start, chunkEnd)`
(clamped to the text, as `substring` clamps), next start = `end - 200`.
Fuel makes the recursion structural; every step advances `start` by at least
800 characters, so `s.length` steps always suffice. -/
def windowsLoop (s : List Char) : ℕ → ℕ → List (List Char)
  | 0, _ => []
  | fuel + 1, start =>
    if start < s.length then
      ((s.drop start).take (chunkEnd s start - start)) ::
        windowsLoop s fuel (chunkEnd s start - 200)
    else []

def chunkWindows (s : List Char) : List (List Char) :=
  windowsLoop s (s.length + 1) 0

/-- Model of `chunkText` (src/rag.js lines 180-206): the loop pushes
`text.substring(start, end).trim()` for each window. -/
def chunksLoop (s : List Char) : ℕ → ℕ → List (List Char)
  | 0, _ => []
  | fuel + 1, start =>
    if start < s.length then
      trimChars ((s.drop start).take (chunkEnd s start - start)) ::
        chunksLoop s fuel (chunkEnd s start - 200)
    else []

def chunkText (s : List Char) : List (List Char) :=
  chunksLoop s (s.length + 1) 0

/-- Concatenation "accounting for the overlap": the first chunk whole, each
later chunk with its leading 200 overlapped characters removed. -/
def joinOverlap : List (List Char) → List Char
  | [] => []
  | c :: cs => c ++ (cs.map (fun d => d.drop 200)).flatten

theorem windowsLoop_stop (s : List Char) (fuel start : ℕ) (h : s.length ≤ start) :
    windowsLoop s fuel start = [] := by
  cases fuel with
  | zero => rfl
  | succ n =>
    simp only [windowsLoop, if_neg (by omega : ¬start < s.length)]

theorem windowsLoop_tail (s : List Char) :
    ∀ fuel start, s.length ≤ start + 800 * fuel → start < s.length →
      ((windowsLoop s fuel start).map (fun d => d.drop 200)).flatten =
        s.drop (start + 200) := by
  intro fuel
  induction fuel with
  | zero => intro start hf hs; omega
  | succ n ih =>
    intro start hf hs
    have he := chunkEnd_ge s start
    simp only [windowsLoop, if_pos hs, List.map_cons, List.flatten_cons]
    have hw : ((s.drop start).take (chunkEnd s start - start)).drop 200 =
        (s.drop (start + 200)).take (chunkEnd s start - start - 200) := by
      rw [List.drop_take, List.drop_drop]
    by_cases h2 : chunkEnd s start - 200 < s.length
    · have hrest := ih (chunkEnd s start - 200) (by omega) h2
      rw [hw, hrest]
      have h3 : chunkEnd s start - 200 + 200 = chunkEnd s start := by omega
      rw [h3]
      have h4 : s.drop (chunkEnd s start) =
          (s.drop (start + 200)).drop (chunkEnd s start - start - 200) := by
        rw [List.drop_drop]
        congr 1
        omega
      rw [h4, List.take_append_drop]
    · rw [windowsLoop_stop s n _ (by omega)]
      simp only [List.map_nil, List.flatten_nil, List.append_nil]
      rw [hw]
      apply List.take_of_length_le
      rw [List.length_drop]
      omega

theorem joinOverlap_chunkWindows (s : List Char) : joinOverlap (chunkWindows s) = s := by
  by_cases h0 : s.length = 0
  · have : s = [] := List.length_eq_zero.mp h0
    subst this
    rfl
  · have hs : 0 < s.length := by omega
    have he := chunkEnd_ge s 0
    simp only [chunkWindows, windowsLoop, if_pos hs, joinOverlap, List.drop_zero,
      Nat.sub_zero]
    by_cases h2 : chunkEnd s 0 - 200 < s.length
    · rw [windowsLoop_tail s s.length (chunkEnd s 0 - 200) (by omega) h2]
      have h3 : chunkEnd s 0 - 200 + 200 = chunkEnd s 0 := by omega
      rw [h3, List.take_append_drop]
    · rw [windowsLoop_stop s s.length _ (by omega)]
      simp only [List.map_nil, List.flatten_nil, List.append_nil]
      exact List.take_of_length_le (by omega)

theorem chunksLoop_eq_map (s : List Char) :
    ∀ fuel start, chunksLoop s fuel start = (windowsLoop s fuel start).map trimChars := by
  intro fuel
  induction fuel with
  | zero => intro start; rfl
  | succ n ih =>
    intro start
    simp only [chunksLoop, windowsLoop]
    by_cases hs : start < s.length
    · simp only [if_pos hs, List.map_cons, ih]
    · simp only [if_neg hs, List.map_nil]

/-- C7 (amended): the untrimmed chunk windows cover the input with no gaps —
concatenating them while dropping the 200-character overlap from every window
after the first reconstructs the input exactly — and the chunks `chunkText`
emits are exactly these windows with leading/trailing whitespace trimmed
(the `.trim()` on line 199), so reconstruction from the emitted chunks holds
only up to whitespace at window boundaries. -/
theorem c7_chunk_windows_cover (s : List Char) :
    joinOverlap (chunkWindows s) = s ∧ chunkText s = (chunkWindows s).map trimChars :=
  ⟨joinOverlap_chunkWindows s, chunksLoop_eq_map s (s.length + 1) 0⟩

/-- The input refuting C7 as stated: 999 `'a'`s, one space, 500 `'b'`s.  The
first window is `a^999 ++ " "` and is trimmed to `a^999`, so the space is
dropped from the overlap accounting and reconstruction misses it. -/
def c7input : List Char := List.replicate 999 'a' ++ [' '] ++ List.replicate 500 'b'

theorem c7_trim_cex : joinOverlap (chunkText c7input) ≠ c7input := by decide

/-! ### Vector index

Modelled from the spec: the flat L2 index is the external `faiss-node`
native library (`new faiss.IndexFlatL2(dim)`, `index.add`, `index.search`),
whose implementation is not part of this repository.  Spec §4.3: a flat store
of vectors; `search(queryVector, k)` returns the `k` closest stored vectors
by squared L2 distance, ascending, ties broken by original insertion order
(stable); if `k` exceeds the number of stored vectors it returns all of them.
`labels`/`distances` are flat arrays, as `faiss-node` returns for a single
query vector. -/

structure FaissIndex where
  dim : ℕ
  vecs : List (List ℚ)
deriving DecidableEq

structure SearchResult where
  labels : List ℕ
  distances : List ℚ
deriving DecidableEq

/-- Squared L2 distance between a query and a stored vector. -/
def sqDist (q v : List ℚ) : ℚ := ((q.zip v).map (fun p => (p.1 - p.2) * (p.1 - p.2))).sum

/-- The retrieval order on `(insertion index, distance)` candidates: by
distance ascending, ties by insertion index — the stable k-NN order. -/
def candLe (a b : ℕ × ℚ) : Prop := a.2 < b.2 ∨ (a.2 = b.2 ∧ a.1 ≤ b.1)

instance : DecidableRel candLe := fun a b => by
  unfold candLe
  infer_instance

instance : IsTotal (ℕ × ℚ) candLe where
  total a b := by
    rcases lt_trichotomy a.2 b.2 with h | h | h
    · exact Or.inl (Or.inl h)
    · rcases Nat.le_total a.1 b.1 with h2 | h2
      · exact Or.inl (Or.inr ⟨h, h2⟩)
      · exact Or.inr (Or.inr ⟨h.symm, h2⟩)
    · exact Or.inr (Or.inl h)

instance : IsTrans (ℕ × ℚ) candLe where
  trans a b c hab hbc := by
    rcases hab with h1 | ⟨h1, h1i⟩
    · rcases hbc with h2 | ⟨h2, _⟩
      · exact Or.inl (h1.trans h2)
      · exact Or.inl (h2 ▸ h1)
    · rcases hbc with h2 | ⟨h2, h2i⟩
      · exact Or.inl (h1 ▸ h2)
      · exact Or.inr ⟨h1.trans h2, h1i.trans h2i⟩

/-- `index.search(q, k)`: score every stored vector, sort stably by distance,
return the first `k` labels and distances. -/
def FaissIndex.search (ix : FaissIndex) (q : List ℚ) (k : ℕ) : SearchResult :=
  let sorted := List.insertionSort candLe ((ix.vecs.map (sqDist q)).enum)
  ⟨(sorted.take k).map Prod.fst, (sorted.take k).map Prod.snd⟩

theorem search_sorted_pairs (ix : FaissIndex) (q : List ℚ) (k : ℕ) :
    (List.insertionSort candLe ((ix.vecs.map (sqDist q)).enum)).take k
      |>.Pairwise (fun a b => candLe a b ∧ a.1 ≠ b.1) := by
  have hsorted : (List.insertionSort candLe ((ix.vecs.map (sqDist q)).enum)).Pairwise candLe :=
    List.sorted_insertionSort candLe _
  have hnodup : ((ix.vecs.map (sqDist q)).enum).Pairwise
      (fun a b : ℕ × ℚ => a.1 ≠ b.1) := by
    have h1 : (((ix.vecs.map (sqDist q)).enum).map Prod.fst).Nodup := by
      rw [List.enum_map_fst]
      exact List.nodup_range _
    rw [List.Nodup, List.pairwise_map] at h1
    exact h1
  have hnodup2 : (List.insertionSort candLe ((ix.vecs.map (sqDist q)).enum)).Pairwise
      (fun a b : ℕ × ℚ => a.1 ≠ b.1) := by
    refine ((List.perm_insertionSort candLe _).pairwise_iff ?_).mpr hnodup
    exact fun hxy => Ne.symm hxy
  exact ((hsorted.and hnodup2).sublist (List.take_sublist k _))

theorem search_mem_enum (ix : FaissIndex) (q : List ℚ) (k : ℕ) (p : ℕ × ℚ)
    (hp : p ∈ (List.insertionSort candLe ((ix.vecs.map (sqDist q)).enum)).take k) :
    p.1 < ix.vecs.length ∧ p.2 = sqDist q (ix.vecs.getD p.1 []) := by
  have h1 : p ∈ List.insertionSort candLe ((ix.vecs.map (sqDist q)).enum) :=
    (List.take_sublist k _).mem hp
  have h2 : p ∈ (ix.vecs.map (sqDist q)).enum :=
    (List.perm_insertionSort candLe _).mem_iff.mp h1
  have h3 : (ix.vecs.map (sqDist q))[p.1]? = some p.2 := by
    have := List.mem_enum_iff_getElem?.mp (show (p.1, p.2) ∈ _ from h2)
    exact this
  have h4 : p.1 < (ix.vecs.map (sqDist q)).length := (List.getElem?_eq_some.mp h3).1
  rw [List.length_map] at h4
  refine ⟨h4, ?_⟩
  rw [List.getElem?_map] at h3
  have h5 : ix.vecs[p.1]? = some (ix.vecs.getD p.1 []) := by
    simp [List.getD, List.getElem?_eq_getElem h4]
  rw [h5] at h3
  simpa using h3.symm

theorem search_demo_eval :
    FaissIndex.search ⟨2, [[0, 0], [3, 4], [1, 1]]⟩ [0, 0] 5 =
      ⟨[0, 2, 1], [0, 2, 25]⟩ := by
  have hm : ([[0, 0], [3, 4], [1, 1]] : List (List ℚ)).map (sqDist [0, 0]) =
      [0, 25, 2] := by
    norm_num [sqDist]
  simp only [FaissIndex.search, hm]
  norm_num [List.enum, List.enumFrom, List.insertionSort, List.orderedInsert, candLe]

/-- C3: `search` returns exactly `min k N` results (`N` = stored vectors),
with distances non-decreasing, equal distances keeping insertion order, and
each label/distance pair naming a stored vector at its squared L2 distance
from the query; concretely, `k = 5` against 3 stored chunks returns exactly
3 results (the skills path issues `search(…, 5)` without clamping). -/
theorem c3_search_contract (ix : FaissIndex) (q : List ℚ) (k : ℕ) :
    (ix.search q k).labels.length = min k ix.vecs.length ∧
    (ix.search q k).distances.length = min k ix.vecs.length ∧
    List.Pairwise (fun a b : ℚ => a ≤ b) (ix.search q k).distances ∧
    List.Pairwise (fun a b : ℕ × ℚ => a.2 = b.2 → a.1 < b.1)
      ((ix.search q k).labels.zip (ix.search q k).distances) ∧
    (∀ p ∈ (ix.search q k).labels.zip (ix.search q k).distances,
      p.1 < ix.vecs.length ∧ p.2 = sqDist q (ix.vecs.getD p.1 [])) ∧
    (FaissIndex.search ⟨2, [[0, 0], [3, 4], [1, 1]]⟩ [0, 0] 5).labels = [0, 2, 1] ∧
    (FaissIndex.search ⟨2, [[0, 0], [3, 4], [1, 1]]⟩ [0, 0] 5).distances = [0, 2, 25] := by
  have hzip : (ix.search q k).labels.zip (ix.search q k).distances =
      (List.insertionSort candLe ((ix.vecs.map (sqDist q)).enum)).take k := by
    simp only [FaissIndex.search]
    rw [List.zip_map']
    simp
  refine ⟨?_, ?_, ?_, ?_, ?_, by rw [search_demo_eval], by rw [search_demo_eval]⟩
  · simp [FaissIndex.search]
  · simp [FaissIndex.search]
  · have h := search_sorted_pairs ix q k
    simp only [FaissIndex.search]
    rw [List.pairwise_map]
    refine h.imp ?_
    rintro a b ⟨hle, _⟩
    rcases hle with h | ⟨h, _⟩
    · exact le_of_lt h
    · exact le_of_eq h
  · rw [hzip]
    refine (search_sorted_pairs ix q k).imp ?_
    rintro a b ⟨hle, hne⟩ heq
    rcases hle with h | ⟨_, h⟩
    · exact absurd heq (ne_of_lt h)
    · exact lt_of_le_of_ne h hne
  · intro p hp
    rw [hzip] at hp
    exact search_mem_enum ix q k p hp

/-! ### Answer generator (src/rag.js lines 55-135) -/

/-- A generation request as sent to the provider: the prompt plus the fact
that a context was supplied, which is the only input the remaining request
options (`num_predict`, `stop`) depend on (lines 94-95). -/
structure GenRequest where
  prompt : List Char
  withContext : Bool
deriving DecidableEq

/-- Outcome of one HTTP generation call, as seen by `generateResponse`:
`some body` = 2xx response whose JSON carried `response: body` (possibly
empty); `none` = transport error, non-2xx status, malformed JSON, or the
30-second `AbortController` firing. -/
def Provider : Type := GenRequest → Option (List Char)

def contextPromptHead : List Char :=
  str "[INST] <|system|>You are a helpful assistant. Answer based on the provided context.</s>\n<|user|>Context: "

def generalPromptHead : List Char :=
  str "[INST] <|system|>You are a helpful AI assistant. Answer the following question helpfully and concisely.</s>\n<|user|>"

/-- The prompt built by `generateResponse` (lines 68-82): with a (truthy,
i.e. non-empty) context, the context template over
`context.substring(0, 1000)`; otherwise the general template. -/
def buildPrompt (context question : List Char) : List Char :=
  if context.isEmpty then
    generalPromptHead ++ question ++ str "[/INST]"
  else
    contextPromptHead ++ context.take 1000 ++ str "...\n\nQuestion: " ++ question ++
      str "\n\nAnswer helpfully: [/INST]"

def genRequest (context question : List Char) : GenRequest :=
  ⟨buildPrompt context question, !context.isEmpty⟩

def apologyResponse : List Char :=
  str "I'm having trouble generating a response right now. Please try again later."

/-- Model of `generateResponse` (lines 55-135): build the prompt, call the
provider; a 2xx body with a non-empty `response` yields `response.trim()`,
and every other outcome (error, non-2xx, empty/missing `response`, abort)
lands in the catch and yields the fixed apology string.  The function never
throws. -/
def generateResponse (provider : Provider) (context question : List Char) : List Char :=
  match provider (genRequest context question) with
  | some body => if body.isEmpty then apologyResponse else trimChars body
  | none => apologyResponse

/-- C10: the generated answer never depends on context content beyond the
first 1000 characters — two contexts agreeing on their first 1000 characters
produce the identical request (prompt and options), hence, under the same
provider behaviour, the identical answer.  Any context under the ≈800
character assembler budget (and the single-best-chunk retry) is therefore
fully covered by this prompt-level cap. -/
theorem c10_prompt_truncation (provider : Provider) (question c1 c2 : List Char)
    (h : c1.take 1000 = c2.take 1000) :
    generateResponse provider c1 question = generateResponse provider c2 question := by
  have hempty : c1.isEmpty = c2.isEmpty := by
    rcases c1 with _ | ⟨a, t1⟩ <;> rcases c2 with _ | ⟨b, t2⟩
    · rfl
    · simp [List.take_succ_cons] at h
    · simp [List.take_succ_cons] at h
    · rfl
  have hprompt : buildPrompt c1 question = buildPrompt c2 question := by
    unfold buildPrompt
    rw [hempty, h]
  unfold generateResponse genRequest
  rw [hprompt, hempty]

theorem c10_prompt_truncation_witness :
    generateResponse (fun r => some r.prompt) (List.replicate 1001 'a') (str "hi") =
      generateResponse (fun r => some r.prompt)
        (List.replicate 1000 'a' ++ [str "b"].flatten) (str "hi") :=
  c10_prompt_truncation (fun r => some r.prompt) (str "hi")
    (List.replicate 1001 'a') (List.replicate 1000 'a' ++ [str "b"].flatten)
    (by decide)

/-! ### Query classifiers (src/rag.js lines 344-355 and 480-486) -/

/-- Model of JS `String.prototype.includes`: `pat` occurs as a contiguous
substring of the text. -/
def containsSub (pat : List Char) : List Char → Bool
  | [] => pat.isEmpty
  | c :: rest => pat.isPrefixOf (c :: rest) || containsSub pat rest

/-- The fixed keyword list of `isSkillsQuestion` (lines 346-352). -/
def skillKeywords : List (List Char) :=
  [str "skill", str "technology", str "tech stack", str "programming", str "language",
   str "framework", str "tool", str "expertise", str "proficient", str "experience with",
   str "technologies", str "tools", str "languages", str "what can you do",
   str "what do you know", str "what are you good at", str "what are your skills",
   str "what are you experienced in", str "technical skills", str "technical expertise",
   str "proficiency", str "knowledge of"]

def containsAny (keys : List (List Char)) (q : List Char) : Bool :=
  keys.any (fun k2 => containsSub k2 q)

/-- Model of `isSkillsQuestion` (lines 345-355): case-insensitive substring
match against the fixed keyword list. -/
def isSkillsQuestion (question : List Char) : Bool :=
  containsAny skillKeywords (lowerChars question)

/-- The résumé-query keywords tested inline in `queryRAG` (lines 481-486). -/
def resumeKeywords : List (List Char) :=
  [str "resume", str "cv", str "experience", str "skill", str "bio", str "about me"]

def isResumeQuery (question : List Char) : Bool :=
  containsAny resumeKeywords (lowerChars question)

/-- The relevance threshold (line 489): lenient `2.5` for résumé-flavoured
questions, strict `1.0` otherwise. -/
def relevanceThreshold (question : List Char) : ℚ :=
  if isResumeQuery question then 5 / 2 else 1

/-! ### Retrieval candidates (src/rag.js lines 432-475) -/

/-- Number of fields of `text.split(/\s+/)`: one more than the number of
maximal whitespace runs (leading/trailing runs contribute empty fields,
exactly as the JS split does). -/
def wsRunsAux : Bool → List Char → ℕ
  | _, [] => 0
  | inRun, c :: rest =>
    if isWs c then (if inRun then 0 else 1) + wsRunsAux true rest
    else wsRunsAux false rest

def wordCountJs (t : List Char) : ℕ := wsRunsAux false t + 1

/-- One scored retrieval candidate (the object literal of lines 455-462). -/
structure Ctx where
  text : List Char
  score : ℚ
  originalScore : ℚ
  wordCount : ℕ
  lineCount : ℕ
  avgLineLength : ℚ
deriving DecidableEq

instance : Inhabited Ctx := ⟨⟨[], 0, 0, 0, 0, 0⟩⟩

/-- Candidate construction (lines 441-462): the quality score is the raw
distance plus a `0.5` penalty when the word count falls outside `[5, 200]`. -/
def mkCtx (text : List Char) (score : ℚ) : Ctx :=
  let wc := wordCountJs text
  let lc := text.count '\n' + 1
  let quality := if wc < 5 || 200 < wc then score + 1 / 2 else score
  ⟨text, quality, score, wc, lc, (text.length : ℚ) / (max 1 lc : ℕ)⟩

/-- The candidate sort comparator `(a, b) => a.score - b.score` — ascending
by quality score; the JS engine's sort is stable, modelled by the stable
insertion sort. -/
def ctxLe (a b : Ctx) : Prop := a.score ≤ b.score

instance : DecidableRel ctxLe := fun a b => by
  unfold ctxLe
  infer_instance

/-- Lines 437-466: map the label/distance rows to candidates, dropping
out-of-range labels, sort ascending by quality score, keep the top `k`. -/
def buildContexts (validDocs : List (List Char)) (indices : List ℕ) (scores : List ℚ)
    (k : ℕ) : List Ctx :=
  let raw := indices.enum.filterMap (fun p =>
    if p.2 < validDocs.length then some (mkCtx (validDocs.getD p.2 []) (scores.getD p.1 0))
    else none)
  (List.insertionSort ctxLe raw).take k

/-! ### Context assembly (src/rag.js lines 522-536) -/

def truncatedMark : List Char := str "... [truncated]"

def midTruncMark : List Char := str "... [middle truncated] ..."

/-- The marker the assembler looks for (line 527) — note it differs from the
`[RESUME_START]`/`[RESUME_END]` markers ingestion actually inserts. -/
def resumeMark : List Char := str "[RESUME]"

/-- Model of the context-budget logic (lines 522-536): contexts over 800
characters that contain `[RESUME]` keep a 400-character head and tail around
a mid-truncation marker; all other oversized contexts get a head truncation. -/
def assembleContext (contextText : List Char) : List Char :=
  if containsSub resumeMark contextText = true ∧ 800 < contextText.length then
    contextText.take 400 ++ midTruncMark ++ contextText.drop (contextText.length - 400)
  else if 800 < contextText.length then
    contextText.take 800 ++ truncatedMark
  else contextText

/-! ### The query pipeline (src/rag.js lines 358-576) -/

/-- The per-query oracle bundle: `embed` is `getEmbedding` (total — it falls
back to `fallbackEmbeddingSync` on every failure), `provider` is the
generation endpoint, and `slow` tells whether the outer
`Promise.race([generateResponse …, 30 s timer])` (lines 540-545) is won by the
timer for a given request. -/
structure QueryEnv where
  embed : List Char → List ℚ
  provider : Provider
  slow : GenRequest → Bool

def generalAnswer (env : QueryEnv) (question : List Char) : List Char :=
  generateResponse env.provider [] question

def chunkSep : List Char := str "\n\n---\n\n"

def joinSep (sep : List Char) (l : List (List Char)) : List Char :=
  (l.intersperse sep).flatten

def timeoutErrMsg : List Char := str "Response generation timed out after 30 seconds"

/-- Model of the context-bearing generation attempt with its timeout fallback
(lines 521-559).  A raced request lost to the timer raises the timeout error;
its catch (line 550) retries exactly once with only `contexts[0]` — the most
relevant chunk — provided more than one candidate existed, and rethrows
otherwise (`generateResponse` itself never throws, so the race is the only
error source and the retry always yields a value). -/
def generationStage (env : QueryEnv) (contexts : List Ctx) (contextText question : List Char) :
    Except (List Char) (List Char) :=
  let limited := assembleContext contextText
  if env.slow (genRequest limited question) then
    if 1 < contexts.length then
      Except.ok (generateResponse env.provider (contexts.headD default).text question)
    else Except.error timeoutErrMsg
  else Except.ok (generateResponse env.provider limited question)

def extractHead : List Char :=
  str "Extract just these details from the resume (be brief):\n- Name\n- Current role\n- Latest work experience\n- Top 3 skills\n\nResume (first 1000 chars):\n"

/-- The rejected-résumé extraction prompt (lines 496-508): all documents
joined, truncated to 2000 characters, of which the first 1000 are inlined. -/
def extractionPrompt (validDocs : List (List Char)) : List Char :=
  let allText := joinSep (str "\n\n") validDocs
  let limitedResume :=
    if 2000 < allText.length then allText.take 2000 ++ truncatedMark else allText
  extractHead ++ limitedResume.take 1000

/-- Lines 468-517 and onward: the empty-candidate bail-out, the relevance
gate, the two rejected-context fallbacks, and the accepted-context
generation stage. -/
def normalCore (env : QueryEnv) (validDocs : List (List Char)) (question : List Char)
    (contexts : List Ctx) : Except (List Char) (List Char) :=
  match contexts with
  | [] => Except.ok (generalAnswer env question)
  | c0 :: rest =>
    if relevanceThreshold question < c0.score then
      if isResumeQuery question then
        Except.ok (generateResponse env.provider [] (extractionPrompt validDocs))
      else Except.ok (generalAnswer env question)
    else
      generationStage env (c0 :: rest) (joinSep chunkSep ((c0 :: rest).map Ctx.text))
        question

def timeoutApology : List Char :=
  str "I'm taking too long to process your request. The resume might be large. Could you try asking a more specific question about the resume?"

/-- The outer catch of `queryRAG` (lines 561-575): a timeout error becomes the
fixed long-running apology, anything else falls back to a context-free general
answer (whose own failure path is unreachable: `generateResponse` is total). -/
def catchHandler (env : QueryEnv) (question : List Char) :
    Except (List Char) (List Char) → List Char
  | Except.ok r => r
  | Except.error msg =>
    if containsSub (str "timed out") msg then timeoutApology
    else generalAnswer env question

/-- The normal (non-skills) retrieval path (lines 417-576).  `faiss-node`
returns flat label/distance arrays, so `Array.isArray(labels[0])` is false and
lines 433-434 keep only the single top hit `[labels[0]]`/`[distances[0]]`. -/
def queryNormal (env : QueryEnv) (ix : FaissIndex) (validDocs : List (List Char))
    (question : List Char) (k : ℕ) : List Char :=
  let res := ix.search (env.embed question) (min (k * 2) validDocs.length)
  catchHandler env question
    (match res.labels with
     | [] => Except.ok (generalAnswer env question)
     | l0 :: _ =>
       normalCore env validDocs question
         (buildContexts validDocs [l0] [res.distances.headD 0] k))

def skillsEmbedText : List Char := str "technical skills and technologies"

def skillsHead : List Char :=
  str "Here are the skills and technologies mentioned in the resume:\n\n"

/-- The skills-extraction prompt template of lines 392-397 (the template
literal's embedded newlines and indentation reproduced from the source). -/
def skillsPromptHead : List Char :=
  str "Extract and list all technical skills, programming languages, \n        frameworks, and tools mentioned in the following text. \n        Group them into categories if possible (e.g., \"Programming Languages\", \"Frameworks\", \"Tools\").\n        Only include actual technologies and skills, no explanations or additional text.\n        \n        "

/-- `line.replace(/^[-•*]\s*/, '')`: one leading bullet character and the
whitespace run after it are removed. -/
def stripBullet (l : List Char) : List Char :=
  match l with
  | c :: rest => if c = '-' || c = '•' || c = '*' then rest.dropWhile isWs else l
  | [] => l

/-- Post-processing of the skills answer (lines 403-407). -/
def cleanSkills (skills : List Char) : List Char :=
  joinSep (str "\n")
    (((skills.splitOn '\n').filter (fun line => !(trimChars line).isEmpty)).map
      (fun line => trimChars (stripBullet line)))

/-- The skills fast path (lines 366-415): search with the canned query and a
fixed `k = 5`; `labels` is a flat array, so the `for … of` over
`[labels[0]]` considers only the top hit (the `Set` dedup is then trivially
a no-op); an empty or out-of-range hit falls back to all documents.  Nothing
in the path throws, so the catch that would fall through to normal
processing is unreachable. -/
def skillsPath (env : QueryEnv) (ix : FaissIndex) (validDocs : List (List Char)) :
    List Char :=
  let res := ix.search (env.embed skillsEmbedText) 5
  let relevant : List (List Char) :=
    match res.labels with
    | [] => []
    | l0 :: _ => if l0 < validDocs.length then [validDocs.getD l0 []] else []
  let contextText :=
    if relevant.isEmpty then joinSep chunkSep validDocs else joinSep chunkSep relevant
  let skills := generateResponse env.provider [] (skillsPromptHead ++ contextText)
  skillsHead ++ cleanSkills skills

/-- The engine's module state (lines 209-213): `index` is `undefined` until a
successful build assigns it, `validDocs` starts empty. -/
structure RagState where
  index : Option FaissIndex
  validDocs : List (List Char)
deriving DecidableEq

def notInitializedMsg : List Char :=
  str "RAG system not initialized. Call initRAG() first."

/-- Model of `queryRAG` (lines 358-576): the not-initialized guard, the
skills fast path, then the normal retrieval path.  `Except.error` is a thrown
exception reaching the caller; `Except.ok` a returned answer string. -/
def queryRAG (st : RagState) (env : QueryEnv) (question : List Char) (k : ℕ) :
    Except (List Char) (List Char) :=
  match st.index with
  | none => Except.error notInitializedMsg
  | some ix =>
    if st.validDocs.isEmpty then Except.error notInitializedMsg
    else if isSkillsQuestion question then Except.ok (skillsPath env ix st.validDocs)
    else Except.ok (queryNormal env ix st.validDocs question k)

/-! ### Ingestion and index construction (src/rag.js lines 215-334)

`initRAG` is modelled from the point the directory listing is known: `files`
is the list of `(name, contents)` pairs `fs.readdirSync`/`readFileSync`
deliver, and `clean` abstracts `cleanText` (lines 138-177), whose internal
regex rules no claim depends on — every theorem below holds for an arbitrary
normalizer.  Embedding the batched `Promise.all` loop (lines 270-300): the
batching only bounds concurrency; the resulting `embeddings` array is
exactly the per-chunk map of `getEmbedding` over the first 8000 characters,
with `null` for empty chunks. -/

def txtFiles (files : List (List Char × List Char)) : List (List Char × List Char) :=
  files.filter (fun f => (str ".txt").isSuffixOf (lowerChars f.1))

def isResumeFile (name : List Char) : Bool :=
  containsSub (str "resume") (lowerChars name) || containsSub (str "cv") (lowerChars name)

/-- Per-file processing (lines 236-268): skip blank files, normalize, skip if
nothing survives, wrap résumé/CV files in the sentinel markers, chunk. -/
def processFile (clean : List Char → List Char) (file : List Char × List Char) :
    List (List Char) :=
  if (trimChars file.2).isEmpty then []
  else
    let cleaned := clean file.2
    if cleaned.isEmpty then []
    else
      let tagged :=
        if isResumeFile file.1 then
          str "[RESUME_START]\n" ++ cleaned ++ str "\n[RESUME_END]"
        else cleaned
      chunkText tagged

def ingestDocs (clean : List Char → List Char) (files : List (List Char × List Char)) :
    List (List Char) :=
  (txtFiles files).flatMap (processFile clean)

/-- Lines 281-295: an empty chunk maps to `null`, every other chunk to
`getEmbedding(text.slice(0, 8000))` — which is total. -/
def chunkEmbedding (embed : List Char → List ℚ) (t : List Char) : Option (List ℚ) :=
  if (trimChars t).isEmpty then none else some (embed (t.take 8000))

/-- Lines 302-311: keep the `(chunk, embedding)` pairs whose embedding is
non-null and non-empty, in order. -/
def validPairs (embed : List Char → List ℚ) (docs : List (List Char)) :
    List (List Char × List ℚ) :=
  docs.filterMap (fun d =>
    match chunkEmbedding embed d with
    | some e => if e.isEmpty then none else some (d, e)
    | none => none)

def noValidMsg : List Char := str "No valid embeddings were generated"

def invalidFlatMsg : List Char := str "Invalid flattened embeddings length for FAISS index."

/-- `index.add(flat)` slices the flattened array into `dim`-sized vectors
(the faiss contract; the source checks divisibility first). -/
def splitVecsAux (dim : ℕ) : ℕ → List ℚ → List (List ℚ)
  | 0, _ => []
  | _, [] => []
  | fuel + 1, flat => flat.take dim :: splitVecsAux dim fuel (flat.drop dim)

def splitVecs (dim : ℕ) (flat : List ℚ) : List (List ℚ) :=
  splitVecsAux dim flat.length flat

/-- Lines 302-329: filter valid pairs, fail hard when none remain, fix the
dimension from the first valid embedding, flatten, check divisibility, build
the index and the aligned `validDocs`. -/
def buildIndex (embed : List Char → List ℚ) (docs : List (List Char)) :
    Except (List Char) RagState :=
  match validPairs embed docs with
  | [] => Except.error noValidMsg
  | v0 :: rest =>
    let dim := v0.2.length
    let flat := ((v0 :: rest).map Prod.snd).flatten
    if flat.length % dim = 0 then
      Except.ok ⟨some ⟨dim, splitVecs dim flat⟩, (v0 :: rest).map Prod.fst⟩
    else Except.error invalidFlatMsg

/-- Model of `initRAG` (lines 215-334): with no `.txt` files the function
warns and returns early (line 230-233), leaving `index` undefined and
`validDocs` empty; otherwise it ingests and builds the index, propagating
any build error to the caller (line 332 `throw error`). -/
def initRAG (clean : List Char → List Char) (embed : List Char → List ℚ)
    (files : List (List Char × List Char)) : Except (List Char) RagState :=
  if (txtFiles files).isEmpty then Except.ok ⟨none, []⟩
  else buildIndex embed (ingestDocs clean files)

/-! ### Claim theorems -/

/-- C1: once initialization succeeded (an index exists and `validDocs` is
non-empty), `queryRAG` always returns an answer string and never throws —
every internal failure is absorbed by `generateResponse`'s catch, the
generation-stage retry, or the outer catch; called before a successful
build (no index, or zero valid documents) it throws the distinguishable
not-initialized error. -/
theorem c1_query_totality (st : RagState) (env : QueryEnv) (question : List Char)
    (k : ℕ) :
    (st.index ≠ none → st.validDocs ≠ [] →
      ∃ answer, queryRAG st env question k = Except.ok answer) ∧
    (st.index = none ∨ st.validDocs = [] →
      queryRAG st env question k = Except.error notInitializedMsg) := by
  constructor
  · intro hix hvd
    rcases hx : st.index with _ | ix
    · exact absurd hx hix
    · simp only [queryRAG, hx]
      rw [if_neg (by simpa [List.isEmpty_iff] using hvd)]
      by_cases hs : isSkillsQuestion question = true
      · rw [if_pos hs]
        exact ⟨_, rfl⟩
      · rw [if_neg hs]
        exact ⟨_, rfl⟩
  · intro h
    rcases h with h | h
    · simp [queryRAG, h]
    · rcases hx : st.index with _ | ix
      · simp [queryRAG, hx]
      · simp [queryRAG, hx, h]

theorem c1_query_totality_witness :
    ∃ answer,
      queryRAG ⟨some ⟨1, [[0]]⟩, [str "doc"]⟩
          ⟨fun _ => [0], fun _ => none, fun _ => false⟩ (str "hello") 5 =
        Except.ok answer :=
  (c1_query_totality ⟨some ⟨1, [[0]]⟩, [str "doc"]⟩
    ⟨fun _ => [0], fun _ => none, fun _ => false⟩ (str "hello") 5).1
    (by simp) (by simp)

/-- C2: on the normal retrieval path the retrieved context is accepted
exactly when the best candidate's quality score is at most the relevance
threshold — `2.5` when the lower-cased question contains a
résumé/cv/experience/skill/bio/"about me" keyword, `1.0` otherwise; a failed
gate yields the context-free general answer, except for résumé-flavoured
questions, which take the extraction path over the truncated concatenation
of all documents. -/
theorem c2_relevance_gate (env : QueryEnv) (validDocs : List (List Char))
    (question : List Char) (c0 : Ctx) (rest : List Ctx) :
    (c0.score ≤ relevanceThreshold question →
      normalCore env validDocs question (c0 :: rest) =
        generationStage env (c0 :: rest)
          (joinSep chunkSep ((c0 :: rest).map Ctx.text)) question) ∧
    (relevanceThreshold question < c0.score → isResumeQuery question = false →
      normalCore env validDocs question (c0 :: rest) =
        Except.ok (generalAnswer env question)) ∧
    (relevanceThreshold question < c0.score → isResumeQuery question = true →
      normalCore env validDocs question (c0 :: rest) =
        Except.ok (generateResponse env.provider [] (extractionPrompt validDocs))) ∧
    (isResumeQuery question = true → relevanceThreshold question = 5 / 2) ∧
    (isResumeQuery question = false → relevanceThreshold question = 1) := by
  refine ⟨?_, ?_, ?_, ?_, ?_⟩
  · intro hle
    simp only [normalCore, if_neg (not_lt.mpr hle)]
  · intro hgt hres
    simp only [normalCore, if_pos hgt, hres]
    simp
  · intro hgt hres
    simp only [normalCore, if_pos hgt, hres]
    simp
  · intro h
    simp [relevanceThreshold, h]
  · intro h
    simp [relevanceThreshold, h]

theorem c2_relevance_gate_witness :
    isResumeQuery (str "tell me about your experience") = true ∧
    isResumeQuery (str "what is the weather today") = false ∧
    normalCore ⟨fun _ => [0], fun _ => none, fun _ => false⟩ [str "doc"]
        (str "tell me about your experience")
        [⟨str "chunk text here is fine", 12 / 5, 12 / 5, 5, 1, 23⟩] =
      generationStage ⟨fun _ => [0], fun _ => none, fun _ => false⟩
        [⟨str "chunk text here is fine", 12 / 5, 12 / 5, 5, 1, 23⟩]
        (joinSep chunkSep [str "chunk text here is fine"])
        (str "tell me about your experience") ∧
    normalCore ⟨fun _ => [0], fun _ => none, fun _ => false⟩ [str "doc"]
        (str "what is the weather today")
        [⟨str "chunk text here is fine", 3 / 2, 3 / 2, 5, 1, 23⟩] =
      Except.ok (generalAnswer ⟨fun _ => [0], fun _ => none, fun _ => false⟩
        (str "what is the weather today")) := by
  refine ⟨by decide, by decide, ?_, ?_⟩
  · refine (c2_relevance_gate _ _ _ _ _).1 ?_
    have h : isResumeQuery (str "tell me about your experience") = true := by decide
    show (12 / 5 : ℚ) ≤ relevanceThreshold (str "tell me about your experience")
    simp only [relevanceThreshold, h, if_true]
    norm_num
  · refine ((c2_relevance_gate _ _ _ _ _).2.1 ?_ (by decide))
    have h : isResumeQuery (str "what is the weather today") = false := by decide
    show relevanceThreshold (str "what is the weather today") < (3 / 2 : ℚ)
    simp only [relevanceThreshold, h, if_false, Bool.false_eq_true]
    norm_num

/-- C5: for a query that reaches generation, if the raced generation call
exceeds the 30-second deadline then (1) with more than one candidate chunk
the call is retried exactly once with only the single most relevant chunk
(`contexts[0]`, the head of the quality-sorted candidates) — by construction
of the stage there is no second retry; (2) if that retry's provider call also
fails, or if a non-timeout provider failure occurs on the original call, the
answer is the fixed apology string; and the stage's only error is the
timeout rethrow, which the outer catch converts to a string — no error
escapes. -/
theorem c5_generation_fallback (env : QueryEnv) (contexts : List Ctx)
    (contextText question : List Char) :
    (env.slow (genRequest (assembleContext contextText) question) = true →
      1 < contexts.length →
      generationStage env contexts contextText question =
        Except.ok (generateResponse env.provider (contexts.headD default).text
          question)) ∧
    (env.slow (genRequest (assembleContext contextText) question) = true →
      1 < contexts.length →
      env.provider (genRequest (contexts.headD default).text question) = none →
      generationStage env contexts contextText question =
        Except.ok apologyResponse) ∧
    (env.slow (genRequest (assembleContext contextText) question) = false →
      env.provider (genRequest (assembleContext contextText) question) = none →
      generationStage env contexts contextText question =
        Except.ok apologyResponse) ∧
    (∀ msg, generationStage env contexts contextText question = Except.error msg →
      msg = timeoutErrMsg ∧
        catchHandler env question (Except.error msg) = timeoutApology) := by
  refine ⟨?_, ?_, ?_, ?_⟩
  · intro hslow hlen
    simp only [generationStage, hslow, if_true, if_pos hlen]
  · intro hslow hlen hfail
    simp only [generationStage, hslow, if_true, if_pos hlen, generateResponse, hfail]
  · intro hslow hfail
    simp only [generationStage, hslow, Bool.false_eq_true, if_false,
      generateResponse, hfail]
  · intro msg hmsg
    simp only [generationStage] at hmsg
    by_cases hslow : env.slow (genRequest (assembleContext contextText) question) = true
    · rw [hslow, if_pos rfl] at hmsg
      by_cases hlen : 1 < contexts.length
      · rw [if_pos hlen] at hmsg
        cases hmsg
      · rw [if_neg hlen] at hmsg
        cases hmsg
        refine ⟨rfl, ?_⟩
        simp only [catchHandler]
        rw [if_pos (by decide)]
    · rw [Bool.not_eq_true] at hslow
      rw [hslow] at hmsg
      simp at hmsg

theorem c5_generation_fallback_witness :
    generationStage ⟨fun _ => [0], fun _ => none, fun _ => true⟩
        [⟨str "best chunk", 1, 1, 2, 1, 10⟩, ⟨str "next chunk", 2, 2, 2, 1, 10⟩]
        (str "some context") (str "q") = Except.ok apologyResponse :=
  (c5_generation_fallback ⟨fun _ => [0], fun _ => none, fun _ => true⟩
    [⟨str "best chunk", 1, 1, 2, 1, 10⟩, ⟨str "next chunk", 2, 2, 2, 1, 10⟩]
    (str "some context") (str "q")).2.1 rfl (by decide) rfl

/-- C4 counterexample: with an empty data directory (no files at all, hence
no `.txt` files), `initRAG` hits the early return of lines 230-233 and
completes successfully — leaving the engine unbuilt — rather than raising an
error that propagates to the caller of startup. -/
theorem c4_empty_dir_cex :
    initRAG (fun t => t) (fun _ => []) [] = Except.ok ⟨none, []⟩ := rfl

/-- C4 (amended): if at least one `.txt` file is present and ingestion still
produces zero valid (chunk, embedding) pairs, `initRAG` throws the fatal
"No valid embeddings were generated" error, which propagates to the caller;
but with no `.txt` files it instead returns successfully without building
anything (queries then fail with the not-initialized error, per C1). -/
theorem c4_zero_valid_fatal (clean : List Char → List Char)
    (embed : List Char → List ℚ) (files : List (List Char × List Char)) :
    ((txtFiles files).isEmpty = true →
      initRAG clean embed files = Except.ok ⟨none, []⟩) ∧
    ((txtFiles files).isEmpty = false →
      validPairs embed (ingestDocs clean files) = [] →
      initRAG clean embed files = Except.error noValidMsg) := by
  constructor
  · intro h
    simp [initRAG, h]
  · intro h hvp
    simp only [initRAG, h, Bool.false_eq_true, if_false]
    simp only [buildIndex, hvp]

theorem c4_zero_valid_fatal_witness :
    initRAG (fun t => t) (fun _ => [1]) [(str "a.txt", str "")] =
      Except.error noValidMsg :=
  (c4_zero_valid_fatal (fun t => t) (fun _ => [1]) [(str "a.txt", str "")]).2
    (by decide) (by decide)

theorem validPairs_snd_ne_nil (embed : List Char → List ℚ) (docs : List (List Char)) :
    ∀ p ∈ validPairs embed docs, p.2.isEmpty = false := by
  intro p hp
  simp only [validPairs, List.mem_filterMap] at hp
  obtain ⟨d, _, hd⟩ := hp
  rcases hce : chunkEmbedding embed d with _ | e
  · rw [hce] at hd
    cases hd
  · rw [hce] at hd
    dsimp only at hd
    by_cases he : e.isEmpty = true
    · rw [if_pos he] at hd
      cases hd
    · rw [if_neg he] at hd
      cases hd
      simpa using he

theorem splitVecsAux_flatten (dim : ℕ) (hdim : 0 < dim) :
    ∀ (ls : List (List ℚ)) (f : ℕ), ls.flatten.length ≤ f →
      (∀ v ∈ ls, v.length = dim) → splitVecsAux dim f ls.flatten = ls := by
  intro ls
  induction ls with
  | nil =>
    intro f _ _
    cases f <;> rfl
  | cons v ls ih =>
    intro f hf hl
    have hv : v.length = dim := hl v (List.mem_cons_self v ls)
    have hvne : v ≠ [] := by
      intro h
      rw [h] at hv
      simp at hv
      omega
    obtain ⟨a, v2, rfl⟩ := List.exists_cons_of_ne_nil hvne
    cases f with
    | zero =>
      exfalso
      simp only [List.flatten_cons, List.length_append, List.length_cons] at hf
      omega
    | succ f =>
      have hflat : ((a :: v2) :: ls).flatten = a :: (v2 ++ ls.flatten) := by
        simp
      rw [hflat]
      show ((a :: (v2 ++ ls.flatten)).take dim) ::
          splitVecsAux dim f ((a :: (v2 ++ ls.flatten)).drop dim) = (a :: v2) :: ls
      have h1 : (a :: (v2 ++ ls.flatten)).take dim = a :: v2 := by
        have : a :: (v2 ++ ls.flatten) = (a :: v2) ++ ls.flatten := by simp
        rw [this, ← hv, List.take_left]
      have h2 : (a :: (v2 ++ ls.flatten)).drop dim = ls.flatten := by
        have : a :: (v2 ++ ls.flatten) = (a :: v2) ++ ls.flatten := by simp
        rw [this, ← hv, List.drop_left]
      rw [h1, h2]
      have hf2 : ls.flatten.length ≤ f := by
        simp only [List.flatten_cons, List.length_append, List.length_cons] at hf
        simp only [List.length_cons] at hv
        omega
      rw [ih f hf2 (fun w hw => hl w (List.mem_cons_of_mem _ hw))]

/-- C8 counterexample: two chunks whose produced embeddings have different
lengths — 1 and 2, mirroring a 384-dimension provider embedding alongside a
768-dimension fallback embedding (the divisibility check `3 % 1 = 0` passes
just as `(384 + 768) % 384 = 0` does).  `initRAG`'s build succeeds, but the
index then holds three slots for two valid documents, so the claimed
slot-to-chunk correspondence (and per-slot equality with the produced
embeddings) cannot hold. -/
theorem c8_mixed_dim_cex :
    buildIndex (fun t => if t = str "a" then [1] else [2, 2]) [str "a", str "b"] =
        Except.ok ⟨some ⟨1, [[1], [2], [2]]⟩, [str "a", str "b"]⟩ ∧
      ([[1], [2], [2]] : List (List ℚ)).length ≠ [str "a", str "b"].length := by
  exact ⟨rfl, by decide⟩

/-- C8 (amended): provided every valid embedding has the same length as the
first one, a successful build stores exactly the valid embeddings, in order,
one slot per chunk of `validDocs`, all of the dimension fixed by the first
embedding, and no invalid (null/empty) pair occupies a slot — the pairs were
filtered out beforehand.  The source's `flat.length % dim` check alone does
not enforce this hypothesis (see the counterexample). -/
theorem c8_uniform_dim (embed : List Char → List ℚ) (docs : List (List Char))
    (v0 : List Char × List ℚ) (rest : List (List Char × List ℚ))
    (hv : validPairs embed docs = v0 :: rest)
    (hdim : ∀ p ∈ validPairs embed docs, p.2.length = v0.2.length) :
    buildIndex embed docs =
      Except.ok ⟨some ⟨v0.2.length, (v0 :: rest).map Prod.snd⟩,
        (v0 :: rest).map Prod.fst⟩ ∧
    ∀ v ∈ (v0 :: rest).map Prod.snd, v.length = v0.2.length := by
  have hlen : ∀ v ∈ (v0 :: rest).map Prod.snd, v.length = v0.2.length := by
    intro v hvmem
    obtain ⟨p, hp, rfl⟩ := List.mem_map.mp hvmem
    exact hdim p (hv ▸ hp)
  have hpos : 0 < v0.2.length := by
    have h0 := validPairs_snd_ne_nil embed docs v0 (hv ▸ List.mem_cons_self v0 rest)
    have hne : v0.2 ≠ [] := by simpa using h0
    exact List.length_pos.mpr hne
  refine ⟨?_, hlen⟩
  simp only [buildIndex, hv]
  have hmod : (((v0 :: rest).map Prod.snd).flatten).length % v0.2.length = 0 := by
    have hmc : ((v0 :: rest).map Prod.snd).map List.length =
        ((v0 :: rest).map Prod.snd).map (fun _ => v0.2.length) := by
      apply List.map_congr_left
      intro v hvm
      exact hlen v hvm
    have h1 : (((v0 :: rest).map Prod.snd).flatten).length =
        ((v0 :: rest).map Prod.snd).length * v0.2.length := by
      rw [List.length_flatten, hmc, List.map_const', List.sum_replicate, smul_eq_mul]
    rw [h1, Nat.mul_mod_left]
  rw [if_pos hmod]
  have hsplit : splitVecs v0.2.length (((v0 :: rest).map Prod.snd).flatten) =
      (v0 :: rest).map Prod.snd := by
    unfold splitVecs
    exact splitVecsAux_flatten v0.2.length hpos _ _ le_rfl hlen
  rw [hsplit]

theorem c8_uniform_dim_witness :
    buildIndex (fun _ => [3, 4]) [str "a", str "b"] =
        Except.ok ⟨some ⟨2, [[3, 4], [3, 4]]⟩, [str "a", str "b"]⟩ ∧
      ∀ v ∈ [[(3 : ℚ), 4], [3, 4]], v.length = 2 :=
  c8_uniform_dim (fun _ => [3, 4]) [str "a", str "b"]
    (str "a", [3, 4]) [(str "b", [3, 4])] rfl (by decide)

/-- The joined context of a typical résumé-file query: a chunk carrying the
`[RESUME_START]`/`[RESUME_END]` sentinels ingestion inserts (lines 255-258),
928 characters long — over the 800-character budget. -/
def c9ctx : List Char :=
  str "[RESUME_START]\n" ++ List.replicate 900 'a' ++ str "\n[RESUME_END]"

/-- C9 (code bug): the assembler's résumé recognition looks for the literal
substring `[RESUME]` (line 527), which occurs in neither of the sentinel
markers ingestion actually inserts, so a résumé context over the budget takes
the single head truncation with `... [truncated]`, not the claimed
prefix + suffix slices around the mid-truncation marker; the mid-truncation
branch itself is correct but unreachable for ingested résumé content — it
fires only when a document happens to contain the literal text `[RESUME]`,
as the last conjunct shows on such an input. -/
theorem c9_marker_mismatch :
    containsSub resumeMark c9ctx = false ∧
    containsSub resumeMark (str "[RESUME_START]\n" ++ str "\n[RESUME_END]") = false ∧
    800 < c9ctx.length ∧
    assembleContext c9ctx = c9ctx.take 800 ++ truncatedMark ∧
    assembleContext (resumeMark ++ List.replicate 900 'a') =
      (resumeMark ++ List.replicate 900 'a').take 400 ++ midTruncMark ++
        (resumeMark ++ List.replicate 900 'a').drop
          ((resumeMark ++ List.replicate 900 'a').length - 400) := by
  refine ⟨by decide, by decide, by decide, ?_, ?_⟩
  · unfold assembleContext
    rw [if_neg, if_pos (by decide)]
    rintro ⟨h1, _⟩
    rw [(by decide : containsSub resumeMark c9ctx = false)] at h1
    cases h1
  · unfold assembleContext
    rw [if_pos ⟨by decide, by decide⟩]
